import Mathlib

/-!
Shallow embedding of the GoMonitor interactive TUI controller and its
process-listing helpers, developed from the Go sources
(`application/pck/ui/interactive.go`, `application/pck/common` package,
`application/pck/pidAssociation.go` and its `common`-delegating variant).

Modelling conventions:
* Go `int` / `int32` values are modelled as `Int`; byte values as `Nat`;
  Go strings, where the code manipulates raw bytes, as `List Nat`.
* `float64` / `float32` metric fields (`CPUPercentage`, `RAMPercentage`)
  are only ever *compared* by the code, never computed with, so they are
  modelled as rationals (`ℚ`).
* The process snapshot source (`common.CollectAllProcessInfo`, reading
  `/proc`) is external; a refresh step takes the snapshot result as an
  explicit `Option (List ProcessInfo)` argument (`none` = fetch error).
* `sort.Slice` is the Go standard library, outside this repository; it is
  modelled by its documented contract: it reorders the slice into some
  permutation that is sorted according to the supplied `less` function,
  and it is documented as NOT guaranteed to be stable.  Controller
  definitions are therefore parametric in the sorting implementation
  (`SortImpl`), and theorems that need sortedness assume the contract
  `SortSliceOK`.
* `syscall.Kill` requests are recorded as an explicit output trace of
  `(pid, signal)` pairs instead of performing the side effect.
-/

namespace GoMonitor

/-- Model of `common.ProcessInfo` (one process row): PID, name, CPU %, RAM %, RAM bytes.
Metric fields are rationals standing for the Go floats (comparison-only use). -/
structure ProcessInfo where
  PID : Int
  Name : String
  CPUPercentage : ℚ
  RAMPercentage : ℚ
  RAMBytes : Nat
deriving DecidableEq, Repr

instance : Inhabited ProcessInfo := ⟨⟨0, "", 0, 0, 0⟩⟩

/-- Model of `common.TruncateString`: truncate a byte string to `maxLen` bytes, appending
`"..."` (bytes `46,46,46`) when there is room for the marker.  Go strings are
byte strings; `s[:k]` is `List.take k`. -/
def TruncateString (s : List Nat) (maxLen : Nat) : List Nat :=
  if s.length ≤ maxLen then s
  else if maxLen ≤ 3 then s.take maxLen
  else s.take (maxLen - 3) ++ [46, 46, 46]

/-- One iteration of `captureKeys` (interactive.go): given the `n` bytes a
single `os.Stdin.Read` produced (`n = c.length`, `buf[i] = c.get! i`, all
accesses guarded by the same `n` bounds the code checks), return the list of
bytes sent on `keyChan` (the code sends exactly one byte per non-empty read). -/
def captureChunk (c : List Nat) : List Nat :=
  match c with
  | [] => []
  | b0 :: _ =>
    if b0 = 27 ∧ c.length ≥ 3 then
      if c.length ≥ 5 ∧ c.get! 1 = 91 ∧ c.get! 2 = 49 ∧ c.get! 3 = 53 ∧ c.get! 4 = 126 then
        [114]
      else if c.get! 1 = 91 then [c.get! 2]
      else [b0]
    else [b0]

/-- The meaning that the switch in `handleKey` assigns to a published byte. -/
inductive KeyEvent where
  | quit
  | up
  | down
  | refresh
  | sortCPU
  | sortRAM
  | sortPID
  | kill
  | other (b : Nat)
deriving DecidableEq, Repr

/-- Classification of a byte by the cases of the switch in `handleKey`:
`q`/`Q`/ESC quit, 65 up, 66 down, `r`/`R` refresh, `c`/`C` CPU sort,
`m`/`M` RAM sort, `p`/`P` PID sort, DEL/`d`/`D` kill, default no-op. -/
def keyEventOf (b : Nat) : KeyEvent :=
  if b = 113 ∨ b = 81 ∨ b = 27 then .quit
  else if b = 65 then .up
  else if b = 66 then .down
  else if b = 114 ∨ b = 82 then .refresh
  else if b = 99 ∨ b = 67 then .sortCPU
  else if b = 109 ∨ b = 77 then .sortRAM
  else if b = 112 ∨ b = 80 then .sortPID
  else if b = 127 ∨ b = 100 ∨ b = 68 then .kill
  else .other b

/-- Model of `ui.SortMode`: `SortByCPU`, `SortByRAM`, `SortByPID`. -/
inductive SortMode where
  | SortByCPU
  | SortByRAM
  | SortByPID
deriving DecidableEq, Repr

/-- The `less` closure `sortProcesses` (interactive.go) passes to `sort.Slice`
for each mode: CPU % descending, RAM % descending, PID ascending. -/
def sortLess : SortMode → ProcessInfo → ProcessInfo → Bool
  | .SortByCPU => fun i j => i.CPUPercentage > j.CPUPercentage
  | .SortByRAM => fun i j => i.RAMPercentage > j.RAMPercentage
  | .SortByPID => fun i j => i.PID < j.PID

/-- Type of a sorting implementation standing in for Go `sort.Slice`
(specialised to process slices): it receives the `less` function and the
slice contents and returns the reordered contents. -/
def SortImpl : Type :=
  (ProcessInfo → ProcessInfo → Bool) → List ProcessInfo → List ProcessInfo

/-- Documented contract of Go `sort.Slice` at the call sites of this program:
for the `less` function of each sort mode, the output is a permutation of the input
ordered so that no later element is `less` than an earlier one.  Stability is
deliberately absent: `sort.Slice` documents that it is not guaranteed stable. -/
def SortSliceOK (impl : SortImpl) : Prop :=
  ∀ (m : SortMode) (l : List ProcessInfo),
    (impl (sortLess m) l).Perm l ∧
    (impl (sortLess m) l).Pairwise (fun x y => sortLess m y x = false)

/-- Model of `ui.InteractiveTUI`: the state record of the controller. -/
structure InteractiveTUI where
  processes : List ProcessInfo
  selectedIndex : Int
  scrollOffset : Int
  sortMode : SortMode
  running : Bool
  width : Int
  height : Int
deriving DecidableEq, Repr

/-- Model of `ui.NewInteractiveTUI`: initial state. -/
def NewInteractiveTUI : InteractiveTUI :=
  { processes := []
    selectedIndex := 0
    scrollOffset := 0
    sortMode := .SortByCPU
    running := true
    width := 120
    height := 30 }

/-- Model of `sortProcesses`: sort a snapshot with `sort.Slice` per the current mode. -/
def sortProcesses (impl : SortImpl) (tui : InteractiveTUI)
    (processes : List ProcessInfo) : List ProcessInfo :=
  impl (sortLess tui.sortMode) processes

/-- Model of `updateProcesses`: on a successful snapshot, sort it, install it, and clamp
`selectedIndex` into the new bounds; on a fetch error (`none`), return with the
state untouched. -/
def updateProcesses (impl : SortImpl) (snapshot : Option (List ProcessInfo))
    (tui : InteractiveTUI) : InteractiveTUI :=
  match snapshot with
  | none => tui
  | some processes =>
    let tui1 := { tui with processes := sortProcesses impl tui processes }
    let tui2 :=
      if tui1.selectedIndex ≥ (tui1.processes.length : Int) then
        { tui1 with selectedIndex := (tui1.processes.length : Int) - 1 }
      else tui1
    if tui2.selectedIndex < 0 then { tui2 with selectedIndex := 0 } else tui2

/-- The constant `maxLines` in `renderProcessList`: the fixed number of visible rows. -/
def maxLines : Int := 20

/-- Scroll adjustment of `renderProcessList` (the only state mutation in the
whole render pass): pull the window up to `selectedIndex` if the selection is
above it, push it down so the selection is the last visible row if below. -/
def renderProcessList (tui : InteractiveTUI) : InteractiveTUI :=
  let tui1 :=
    if tui.selectedIndex < tui.scrollOffset then
      { tui with scrollOffset := tui.selectedIndex }
    else tui
  if tui1.selectedIndex ≥ tui1.scrollOffset + maxLines then
    { tui1 with scrollOffset := tui1.selectedIndex - maxLines + 1 }
  else tui1

/-- Model of `render`: header/info-bar/table/footer only write text; `renderProcessList`
carries the sole state change. -/
def render (tui : InteractiveTUI) : InteractiveTUI :=
  renderProcessList tui

/-- The two signals `killSelectedProcess` can request via `syscall.Kill`. -/
inductive Signal where
  | SIGTERM
  | SIGKILL
deriving DecidableEq, Repr

/-- Model of `killSelectedProcess`: with an invalid selection do nothing; otherwise send
SIGTERM to the selected PID, escalate to SIGKILL only if the SIGTERM request
failed (`termOk = false`), then refresh the process list.  The emitted
`(pid, signal)` requests are returned as a trace. -/
def killSelectedProcess (impl : SortImpl) (termOk : Bool)
    (snapshot : Option (List ProcessInfo)) (tui : InteractiveTUI) :
    InteractiveTUI × List (Int × Signal) :=
  if tui.selectedIndex < 0 ∨ tui.selectedIndex ≥ (tui.processes.length : Int) then
    (tui, [])
  else
    let pid := (tui.processes.getD tui.selectedIndex.toNat default).PID
    let sigs := (pid, Signal.SIGTERM) ::
      (if termOk then [] else [(pid, Signal.SIGKILL)])
    (updateProcesses impl snapshot tui, sigs)

/-- Model of `handleKey`: dispatch one published byte.  `snapshot` is the result the
process data source would deliver if this step refreshes; `termOk` whether a
SIGTERM request would succeed.  Returns the new state and the trace of
termination requests issued during the step. -/
def handleKey (impl : SortImpl) (snapshot : Option (List ProcessInfo))
    (termOk : Bool) (key : Nat) (tui : InteractiveTUI) :
    InteractiveTUI × List (Int × Signal) :=
  if key = 113 ∨ key = 81 ∨ key = 27 then
    ({ tui with running := false }, [])
  else if key = 65 then
    let tui1 :=
      if tui.selectedIndex > 0 then
        { tui with selectedIndex := tui.selectedIndex - 1 }
      else tui
    (render tui1, [])
  else if key = 66 then
    let tui1 :=
      if tui.selectedIndex < (tui.processes.length : Int) - 1 then
        { tui with selectedIndex := tui.selectedIndex + 1 }
      else tui
    (render tui1, [])
  else if key = 114 ∨ key = 82 then
    (render (updateProcesses impl snapshot tui), [])
  else if key = 99 ∨ key = 67 then
    (render (updateProcesses impl snapshot { tui with sortMode := .SortByCPU }), [])
  else if key = 109 ∨ key = 77 then
    (render (updateProcesses impl snapshot { tui with sortMode := .SortByRAM }), [])
  else if key = 112 ∨ key = 80 then
    (render (updateProcesses impl snapshot { tui with sortMode := .SortByPID }), [])
  else if key = 127 ∨ key = 100 ∨ key = 68 then
    let r := killSelectedProcess impl termOk snapshot tui
    (render r.1, r.2)
  else (tui, [])

/-- States the controller can reach in `Run`: the state after the initial
`updateProcesses(); render()`, closed under `handleKey` steps (arbitrary
published byte, snapshot outcome and SIGTERM outcome) and under the Ctrl+C
signal handler (which only clears `running`). -/
inductive Reachable (impl : SortImpl) : InteractiveTUI → Prop where
  | init : ∀ snapshot,
      Reachable impl (render (updateProcesses impl snapshot NewInteractiveTUI))
  | step : ∀ tui snapshot termOk key, Reachable impl tui →
      Reachable impl (handleKey impl snapshot termOk key tui).1
  | interrupt : ∀ tui, Reachable impl tui →
      Reachable impl { tui with running := false }

/-- Model of the `switch field` body in the inner loop of
`common.SortProcessesByField`:
should the scan adopt `pj` (at index `j`) over the current `psel` (at
`selectedIdx`)?  Unknown fields leave `shouldSwap` at its `false` default.
Go compares `Name` strings bytewise; `String` order stands in for it. -/
def shouldSwapField (field : String) (descending : Bool)
    (pj psel : ProcessInfo) : Bool :=
  if field = "cpu" then
    if descending then pj.CPUPercentage > psel.CPUPercentage
    else pj.CPUPercentage < psel.CPUPercentage
  else if field = "ram" then
    if descending then pj.RAMPercentage > psel.RAMPercentage
    else pj.RAMPercentage < psel.RAMPercentage
  else if field = "pid" then
    if descending then pj.PID > psel.PID
    else pj.PID < psel.PID
  else if field = "name" then
    if descending then decide (psel.Name < pj.Name)
    else decide (pj.Name < psel.Name)
  else false

/-- Inner loop of `common.SortProcessesByField`: scan indices `j` over `js`
(in the code, `i+1 … n-1`), replacing `selectedIdx` whenever the element at
`j` should come first. -/
def selectScan (field : String) (descending : Bool) (l : List ProcessInfo)
    (selectedIdx : Nat) (js : List Nat) : Nat :=
  js.foldl
    (fun sel j =>
      if shouldSwapField field descending (l.getD j default) (l.getD sel default)
      then j else sel)
    selectedIdx

/-- The Go parallel assignment `l[i], l[j] = l[j], l[i]` on a list. -/
def listSwap (l : List ProcessInfo) (i j : Nat) : List ProcessInfo :=
  (l.set i (l.getD j default)).set j (l.getD i default)

/-- One iteration of the outer loop of `common.SortProcessesByField`: find the
selected index for position `i` and swap it in if it differs from `i`. -/
def selectPass (field : String) (descending : Bool)
    (l : List ProcessInfo) (i : Nat) : List ProcessInfo :=
  let selectedIdx := selectScan field descending l i (List.range' (i + 1) (l.length - (i + 1)))
  if selectedIdx ≠ i then listSwap l i selectedIdx else l

/-- Model of `common.SortProcessesByField`: in-place selection sort of a process list by
the named field, in the requested direction (`n ≤ 1` returns immediately).
The list length is invariant over every pass, so the loop bounds computed once
from `n` in Go are computed from the running list here interchangeably. -/
def SortProcessesByField (field : String) (descending : Bool)
    (processes : List ProcessInfo) : List ProcessInfo :=
  if processes.length ≤ 1 then processes
  else (List.range (processes.length - 1)).foldl (selectPass field descending) processes

/-- Model of `GetProcessAssociationSorted` (the variant delegating to common): sort the snapshot by CPU
descending via `common.SortProcessesByField`.  The `pidAssociation.go` variant
inlines the identical selection sort (`maxIdx` scan on `CPUPercentage >`). -/
def GetProcessAssociationSorted (snapshot : List ProcessInfo) : List ProcessInfo :=
  SortProcessesByField ("cpu") true snapshot

/-- Rows printed by `PrintTopProcesses` in `pidAssociation.go`: clamp `n` to the
list length and print the first `n` sorted rows. -/
def PrintTopProcessesRowsAssoc (n : Nat) (snapshot : List ProcessInfo) : List ProcessInfo :=
  let processes := GetProcessAssociationSorted snapshot
  processes.take (min n processes.length)

/-- Rows printed by the part_005 `PrintTopProcesses` via
`common.PrintProcessTable`: truncate to `maxProcesses` only when
`0 < maxProcesses < len`. -/
def PrintTopProcessesRows (n : Nat) (snapshot : List ProcessInfo) : List ProcessInfo :=
  let processes := GetProcessAssociationSorted snapshot
  if 0 < n ∧ n < processes.length then processes.take n else processes

/-- A sorting implementation meeting the `sort.Slice` contract (used to witness
theorems that hypothesise the contract): insertion sort by the non-strict
companion of `less`. -/
def stableImpl : SortImpl :=
  fun less l => List.insertionSort (fun a b => less b a = false) l

/-- A second implementation also meeting the contract but reversing the input
first, so records with equal sort keys come out in reversed input order: the
contract of `sort.Slice` permits unstable outcomes. -/
def reversingImpl : SortImpl :=
  fun less l => List.insertionSort (fun a b => less b a = false) l.reverse

/-- Selection-bounds invariant of the controller state: `selectedIndex` is `0`
on an empty list and a valid index otherwise. -/
def SelInv (tui : InteractiveTUI) : Prop :=
  0 ≤ tui.selectedIndex ∧
  (tui.processes.length = 0 → tui.selectedIndex = 0) ∧
  (tui.processes.length ≠ 0 → tui.selectedIndex < (tui.processes.length : Int))

/-- Scroll-window invariant: the window start is non-negative and the selected
row lies inside the `maxLines`-row window. -/
def ScrollInv (tui : InteractiveTUI) : Prop :=
  0 ≤ tui.scrollOffset ∧ tui.scrollOffset ≤ tui.selectedIndex ∧
  tui.selectedIndex ≤ tui.scrollOffset + maxLines - 1

/-- The bytes whose `handleKey` case performs a refresh or a sort-mode change:
`r`/`R`, `c`/`C`, `m`/`M`, `p`/`P`. -/
def RefreshOrSortKey (key : Nat) : Prop :=
  key = 114 ∨ key = 82 ∨ key = 99 ∨ key = 67 ∨
  key = 109 ∨ key = 77 ∨ key = 112 ∨ key = 80

/-- Two records have equal sort keys for mode `m` when neither precedes the
other under the comparator of the mode. -/
def EqualKeys (m : SortMode) (x y : ProcessInfo) : Bool :=
  !sortLess m x y && !sortLess m y x

/-- Predicate: `output` is a stable sort of `input` for mode `m`: it is ordered by the
comparator of the mode and records with equal sort keys keep their relative input
order (their key-classes are preserved as subsequences). -/
def StablySortedFrom (m : SortMode) (input output : List ProcessInfo) : Prop :=
  output.Pairwise (fun x y => sortLess m y x = false) ∧
  ∀ p : ProcessInfo,
    output.filter (fun x => EqualKeys m x p) = input.filter (fun x => EqualKeys m x p)

/-- Claim C2 as stated: for every sorting implementation meeting the contract
of `sort.Slice`, immediately after any refresh or sort-mode-change step the
process list is ordered per the comparator of the current mode and the ordering is stable
across equal keys relative to the snapshot. -/
def ClaimC2 : Prop :=
  ∀ impl : SortImpl, SortSliceOK impl →
  ∀ (tui : InteractiveTUI) (snapshot : List ProcessInfo) (termOk : Bool) (key : Nat),
    RefreshOrSortKey key →
    StablySortedFrom (handleKey impl (some snapshot) termOk key tui).1.sortMode
      snapshot (handleKey impl (some snapshot) termOk key tui).1.processes

/-- Equal-CPU records keep their relative snapshot order: each CPU-value class
of `output` is the corresponding subsequence of `input`. -/
def CpuStable (input output : List ProcessInfo) : Prop :=
  ∀ c : ℚ, output.filter (fun x => x.CPUPercentage == c) =
    input.filter (fun x => x.CPUPercentage == c)

/-- Claim C8 as stated: the top-N listing shows the first `N` rows of the
CPU-descending-sorted snapshot, the sorted list is a permutation of the
snapshot in descending CPU order, and equal-CPU records keep their original
snapshot order. -/
def ClaimC8 : Prop :=
  ∀ (snapshot : List ProcessInfo) (n : Nat),
    PrintTopProcessesRowsAssoc n snapshot = (GetProcessAssociationSorted snapshot).take n ∧
    (0 < n → PrintTopProcessesRows n snapshot = (GetProcessAssociationSorted snapshot).take n) ∧
    (GetProcessAssociationSorted snapshot).Perm snapshot ∧
    (GetProcessAssociationSorted snapshot).Pairwise
      (fun x y => sortLess .SortByCPU y x = false) ∧
    CpuStable snapshot (GetProcessAssociationSorted snapshot)

/-- Trivial sorting implementation (identity), used to instantiate theorems
whose statements hold for an arbitrary implementation. -/
def implId : SortImpl := fun _ l => l

/-- Concrete fixture: PID 1, CPU 5%. -/
def procA5 : ProcessInfo := ⟨1, "alpha", 5, 1, 100⟩

/-- Concrete fixture: PID 2, CPU 5% (ties `procA5` on CPU). -/
def procB5 : ProcessInfo := ⟨2, "beta", 5, 2, 200⟩

/-- Concrete fixture: PID 3, CPU 9%. -/
def procC9 : ProcessInfo := ⟨3, "gamma", 9, 3, 300⟩

/-- Selection-sort outer-loop invariant: each of the first `t` positions of `l`
already holds a value at least as large (by CPU %) as every later position. -/
def DomPrefix (t : Nat) (l : List ProcessInfo) : Prop :=
  ∀ a b : Nat, a < b → b < l.length → a < t →
    (l.getD b default).CPUPercentage ≤ (l.getD a default).CPUPercentage

theorem render_fields (tui : InteractiveTUI) :
    (render tui).selectedIndex = tui.selectedIndex ∧
    (render tui).processes = tui.processes ∧
    (render tui).sortMode = tui.sortMode ∧
    (render tui).running = tui.running := by
  simp only [render, renderProcessList, maxLines]
  split_ifs <;> simp

theorem render_window (tui : InteractiveTUI) :
    (render tui).scrollOffset ≤ tui.selectedIndex ∧
    tui.selectedIndex ≤ (render tui).scrollOffset + maxLines - 1 := by
  simp only [render, renderProcessList, maxLines]
  split_ifs <;> (try simp) <;> omega

/-- C10: `common.TruncateString` returns at most `maxLen` bytes; it returns the
input unchanged exactly when the input already fits in `maxLen` bytes; on
overflow it keeps the first `maxLen - 3` bytes followed by `"..."` when
`maxLen > 3`, and the bare `maxLen`-byte prefix (no ellipsis) when
`maxLen ≤ 3`. -/
theorem C10_truncateString_spec (s : List Nat) (maxLen : Nat) :
    (TruncateString s maxLen).length ≤ maxLen ∧
    (TruncateString s maxLen = s ↔ s.length ≤ maxLen) ∧
    (maxLen < s.length → 3 < maxLen →
      TruncateString s maxLen = s.take (maxLen - 3) ++ [46, 46, 46]) ∧
    (maxLen < s.length → maxLen ≤ 3 →
      TruncateString s maxLen = s.take maxLen) := by
  unfold TruncateString
  by_cases h1 : s.length ≤ maxLen
  · rw [if_pos h1]
    exact ⟨h1, by simp [h1], fun h _ => absurd h1 (by omega), fun h _ => absurd h1 (by omega)⟩
  · push_neg at h1
    rw [if_neg (by omega)]
    by_cases h2 : maxLen ≤ 3
    · rw [if_pos h2]
      refine ⟨by simp, ?_, fun _ h3 => absurd h2 (by omega), fun _ _ => rfl⟩
      constructor
      · intro he
        have hl := congrArg List.length he
        simp at hl
        omega
      · intro h
        omega
    · rw [if_neg h2]
      have hmin : min (maxLen - 3) s.length = maxLen - 3 := by omega
      refine ⟨by simp [hmin]; omega, ?_, fun _ _ => rfl, fun _ h3 => absurd h3 h2⟩
      constructor
      · intro he
        have hl := congrArg List.length he
        simp [hmin] at hl
        omega
      · intro h
        omega

/-- C10 witness: concrete evaluations exercising each clause. -/
theorem C10_truncateString_spec_witness :
    TruncateString [1, 2, 3, 4, 5, 6, 7] 5 = [1, 2, 46, 46, 46] ∧
    TruncateString [1, 2, 3, 4, 5, 6, 7] 2 = [1, 2] ∧
    TruncateString [1, 2] 5 = [1, 2] :=
  ⟨(C10_truncateString_spec [1, 2, 3, 4, 5, 6, 7] 5).2.2.1 (by decide) (by decide),
   (C10_truncateString_spec [1, 2, 3, 4, 5, 6, 7] 2).2.2.2 (by decide) (by decide),
   (C10_truncateString_spec [1, 2] 5).2.1.mpr (by decide)⟩

/-- C6: `captureKeys` decoding — the chunk `ESC [ A` publishes exactly the one
byte 65, which `handleKey` treats as UP; the chunk `ESC [ 1 5 ~` publishes
exactly the one byte `r`, the refresh key; a lone `ESC` chunk publishes byte 27,
the quit key; and any single-byte chunk is published as itself. -/
theorem C6_escape_decoding :
    (captureChunk [27, 91, 65]).map keyEventOf = [KeyEvent.up] ∧
    (captureChunk [27, 91, 49, 53, 126]).map keyEventOf = [KeyEvent.refresh] ∧
    (captureChunk [27]).map keyEventOf = [KeyEvent.quit] ∧
    (∀ b : Nat, captureChunk [b] = [b]) := by
  refine ⟨by decide, by decide, by decide, fun b => ?_⟩
  simp [captureChunk]

/-- C3: after `render`, the selection lies inside the visible window
(`scroll_offset ≤ selected_index ≤ scroll_offset + maxLines - 1` with
`maxLines = 20`), and the window moves by exactly the deficit: it is pulled up
to `selected_index` when the selection is above it, pushed down so the
selection is the last window row when below it, and unchanged when the
selection is already visible. -/
theorem C3_scroll_containment (tui : InteractiveTUI) :
    ((render tui).scrollOffset ≤ (render tui).selectedIndex ∧
      (render tui).selectedIndex ≤ (render tui).scrollOffset + maxLines - 1) ∧
    (tui.selectedIndex < tui.scrollOffset →
      (render tui).scrollOffset = tui.selectedIndex) ∧
    (tui.scrollOffset ≤ tui.selectedIndex →
      tui.scrollOffset + maxLines ≤ tui.selectedIndex →
      (render tui).scrollOffset = tui.selectedIndex - maxLines + 1) ∧
    (tui.scrollOffset ≤ tui.selectedIndex →
      tui.selectedIndex < tui.scrollOffset + maxLines →
      (render tui).scrollOffset = tui.scrollOffset) := by
  simp only [render, renderProcessList, maxLines]
  split_ifs <;>
    refine ⟨⟨?_, ?_⟩, ?_, ?_, ?_⟩ <;> (intros; simp_all) <;> omega

/-- C3 witness: the three window behaviours at concrete states. -/
theorem C3_scroll_containment_witness :
    (render { NewInteractiveTUI with selectedIndex := 25 }).scrollOffset = 25 - maxLines + 1 ∧
    (render { NewInteractiveTUI with selectedIndex := 3, scrollOffset := 7 }).scrollOffset = 3 ∧
    (render { NewInteractiveTUI with selectedIndex := 3 }).scrollOffset = 0 :=
  ⟨(C3_scroll_containment { NewInteractiveTUI with selectedIndex := 25 }).2.2.1
      (by decide) (by decide),
   (C3_scroll_containment { NewInteractiveTUI with selectedIndex := 3, scrollOffset := 7 }).2.1
      (by decide),
   (C3_scroll_containment { NewInteractiveTUI with selectedIndex := 3 }).2.2.2
      (by decide) (by decide)⟩

theorem sortLess_total (m : SortMode) (a b : ProcessInfo) :
    sortLess m b a = false ∨ sortLess m a b = false := by
  cases m <;> simp only [sortLess, decide_eq_false_iff_not, not_lt, gt_iff_lt]
  · exact le_total b.CPUPercentage a.CPUPercentage
  · exact le_total b.RAMPercentage a.RAMPercentage
  · exact le_total a.PID b.PID

theorem sortLess_trans (m : SortMode) (a b c : ProcessInfo) :
    sortLess m b a = false → sortLess m c b = false → sortLess m c a = false := by
  cases m <;> simp only [sortLess, decide_eq_false_iff_not, not_lt, gt_iff_lt]
  · exact fun h1 h2 => h2.trans h1
  · exact fun h1 h2 => h2.trans h1
  · exact fun h1 h2 => h1.trans h2

theorem sortSliceOK_stableImpl : SortSliceOK stableImpl := by
  intro m l
  haveI ht : IsTotal ProcessInfo (fun a b => sortLess m b a = false) :=
    ⟨fun a b => sortLess_total m a b⟩
  haveI htr : IsTrans ProcessInfo (fun a b => sortLess m b a = false) :=
    ⟨fun a b c h1 h2 => sortLess_trans m a b c h1 h2⟩
  exact ⟨List.perm_insertionSort _ l, List.sorted_insertionSort _ l⟩

theorem sortSliceOK_reversingImpl : SortSliceOK reversingImpl := by
  intro m l
  haveI ht : IsTotal ProcessInfo (fun a b => sortLess m b a = false) :=
    ⟨fun a b => sortLess_total m a b⟩
  haveI htr : IsTrans ProcessInfo (fun a b => sortLess m b a = false) :=
    ⟨fun a b c h1 h2 => sortLess_trans m a b c h1 h2⟩
  exact ⟨(List.perm_insertionSort _ l.reverse).trans l.reverse_perm,
    List.sorted_insertionSort _ l.reverse⟩

theorem updateProcesses_none (impl : SortImpl) (tui : InteractiveTUI) :
    updateProcesses impl none tui = tui := rfl

theorem updateProcesses_fields (impl : SortImpl) (snapshot : Option (List ProcessInfo))
    (tui : InteractiveTUI) :
    (updateProcesses impl snapshot tui).scrollOffset = tui.scrollOffset ∧
    (updateProcesses impl snapshot tui).sortMode = tui.sortMode ∧
    (updateProcesses impl snapshot tui).running = tui.running := by
  cases snapshot with
  | none => exact ⟨rfl, rfl, rfl⟩
  | some l =>
    simp only [updateProcesses]
    split_ifs <;> simp

theorem updateProcesses_some_processes (impl : SortImpl) (l : List ProcessInfo)
    (tui : InteractiveTUI) :
    (updateProcesses impl (some l) tui).processes = sortProcesses impl tui l := by
  simp only [updateProcesses]
  split_ifs <;> simp

theorem selInv_updateProcesses_some (impl : SortImpl) (l : List ProcessInfo)
    (tui : InteractiveTUI) :
    SelInv (updateProcesses impl (some l) tui) := by
  unfold SelInv updateProcesses
  dsimp only
  split_ifs <;> dsimp only at * <;> omega

theorem selInv_updateProcesses (impl : SortImpl) (snapshot : Option (List ProcessInfo))
    (tui : InteractiveTUI) (h : SelInv tui) :
    SelInv (updateProcesses impl snapshot tui) := by
  cases snapshot with
  | none => exact h
  | some l => exact selInv_updateProcesses_some impl l tui

theorem selInv_of_eq (t t' : InteractiveTUI) (h : SelInv t)
    (h1 : t'.selectedIndex = t.selectedIndex) (h2 : t'.processes = t.processes) :
    SelInv t' := by
  unfold SelInv at *
  rw [h1, h2]
  exact h

theorem scrollInv_of_eq (t t' : InteractiveTUI) (h : ScrollInv t)
    (h1 : t'.selectedIndex = t.selectedIndex) (h2 : t'.scrollOffset = t.scrollOffset) :
    ScrollInv t' := by
  unfold ScrollInv at *
  rw [h1, h2]
  exact h

theorem scrollInv_render (tui : InteractiveTUI) (hsi : 0 ≤ tui.selectedIndex)
    (hso : 0 ≤ tui.scrollOffset) : ScrollInv (render tui) := by
  unfold ScrollInv render renderProcessList maxLines
  by_cases h1 : tui.selectedIndex < tui.scrollOffset
  · rw [if_pos h1]
    dsimp only
    rw [if_neg (show ¬tui.selectedIndex ≥ tui.selectedIndex + 20 by omega)]
    dsimp only
    omega
  · rw [if_neg h1]
    by_cases h2 : tui.selectedIndex ≥ tui.scrollOffset + 20
    · rw [if_pos h2]
      dsimp only
      omega
    · rw [if_neg h2]
      try dsimp only
      omega

theorem inv_render (tui : InteractiveTUI) (h : SelInv tui) (hso : 0 ≤ tui.scrollOffset) :
    SelInv (render tui) ∧ ScrollInv (render tui) := by
  obtain ⟨f1, f2, -, -⟩ := render_fields tui
  exact ⟨selInv_of_eq tui (render tui) h f1 f2, scrollInv_render tui h.1 hso⟩

theorem selInv_new : SelInv NewInteractiveTUI := by
  refine ⟨le_refl 0, fun _ => rfl, fun h => absurd rfl h⟩

theorem render_eq_self (tui : InteractiveTUI) (h : ScrollInv tui) : render tui = tui := by
  obtain ⟨-, h1, h2⟩ := h
  simp only [maxLines] at h2
  simp only [render, renderProcessList, maxLines]
  rw [if_neg (show ¬tui.selectedIndex < tui.scrollOffset by omega)]
  rw [if_neg (show ¬tui.selectedIndex ≥ tui.scrollOffset + 20 by omega)]

theorem inv_handleKey (impl : SortImpl) (snapshot : Option (List ProcessInfo))
    (termOk : Bool) (key : Nat) (tui : InteractiveTUI)
    (h : SelInv tui ∧ ScrollInv tui) :
    SelInv (handleKey impl snapshot termOk key tui).1 ∧
    ScrollInv (handleKey impl snapshot termOk key tui).1 := by
  obtain ⟨hs, hw⟩ := h
  have hso : 0 ≤ tui.scrollOffset := hw.1
  unfold handleKey
  split_ifs with h1 h2 h3 h4 h5 h6 h7 h8 h9 h10
  · exact ⟨selInv_of_eq tui _ hs rfl rfl, scrollInv_of_eq tui _ hw rfl rfl⟩
  · dsimp only
    refine inv_render _ ?_ hso
    unfold SelInv at hs ⊢
    dsimp only
    omega
  · dsimp only
    exact inv_render tui hs hso
  · dsimp only
    refine inv_render _ ?_ hso
    unfold SelInv at hs ⊢
    dsimp only
    omega
  · dsimp only
    exact inv_render tui hs hso
  · dsimp only
    refine inv_render _ (selInv_updateProcesses impl snapshot tui hs) ?_
    rw [(updateProcesses_fields impl snapshot tui).1]
    exact hso
  · dsimp only
    refine inv_render _ (selInv_updateProcesses impl snapshot _ ?_) ?_
    · exact selInv_of_eq tui _ hs rfl rfl
    · rw [(updateProcesses_fields impl snapshot _).1]
      exact hso
  · dsimp only
    refine inv_render _ (selInv_updateProcesses impl snapshot _ ?_) ?_
    · exact selInv_of_eq tui _ hs rfl rfl
    · rw [(updateProcesses_fields impl snapshot _).1]
      exact hso
  · dsimp only
    refine inv_render _ (selInv_updateProcesses impl snapshot _ ?_) ?_
    · exact selInv_of_eq tui _ hs rfl rfl
    · rw [(updateProcesses_fields impl snapshot _).1]
      exact hso
  · dsimp only
    unfold killSelectedProcess
    by_cases hguard : tui.selectedIndex < 0 ∨ tui.selectedIndex ≥ (tui.processes.length : Int)
    · rw [if_pos hguard]
      exact inv_render tui hs hso
    · rw [if_neg hguard]
      dsimp only
      refine inv_render _ (selInv_updateProcesses impl snapshot tui hs) ?_
      rw [(updateProcesses_fields impl snapshot tui).1]
      exact hso
  · exact ⟨hs, hw⟩

theorem reachable_inv (impl : SortImpl) (tui : InteractiveTUI)
    (h : Reachable impl tui) : SelInv tui ∧ ScrollInv tui := by
  induction h with
  | init snapshot =>
    refine inv_render _ (selInv_updateProcesses impl snapshot _ selInv_new) ?_
    rw [(updateProcesses_fields impl snapshot _).1]
    exact le_refl 0
  | step tui snapshot termOk key hr ih =>
    exact inv_handleKey impl snapshot termOk key tui ih
  | interrupt tui hr ih =>
    exact ⟨selInv_of_eq tui _ ih.1 rfl rfl, scrollInv_of_eq tui _ ih.2 rfl rfl⟩

/-- C1: in every reachable controller state, `selectedIndex` is a valid index
(`0 ≤ selectedIndex < len(processes)`) whenever the process list is non-empty,
and `selectedIndex = 0` whenever it is empty.  Reachability closes the initial
state under every `handleKey` transition (navigation, refresh, sort-mode
change, kill) with arbitrary snapshot and kill outcomes. -/
theorem C1_selection_bounds (impl : SortImpl) (tui : InteractiveTUI)
    (h : Reachable impl tui) :
    (tui.processes ≠ [] →
      0 ≤ tui.selectedIndex ∧ tui.selectedIndex < (tui.processes.length : Int)) ∧
    (tui.processes = [] → tui.selectedIndex = 0) := by
  obtain ⟨⟨h0, he, hne⟩, -⟩ := reachable_inv impl tui h
  constructor
  · intro hne2
    exact ⟨h0, hne (by simpa using hne2)⟩
  · intro he2
    exact he (by simp [he2])

/-- C1 witness: the invariant at a concrete reachable state (one refresh from
the initial state, with a one-process snapshot). -/
theorem C1_selection_bounds_witness :
    ((render (updateProcesses implId (some [procA5]) NewInteractiveTUI)).processes ≠ [] →
      0 ≤ (render (updateProcesses implId (some [procA5]) NewInteractiveTUI)).selectedIndex ∧
      (render (updateProcesses implId (some [procA5]) NewInteractiveTUI)).selectedIndex <
        ((render (updateProcesses implId (some [procA5]) NewInteractiveTUI)).processes.length : Int)) ∧
    ((render (updateProcesses implId (some [procA5]) NewInteractiveTUI)).processes = [] →
      (render (updateProcesses implId (some [procA5]) NewInteractiveTUI)).selectedIndex = 0) :=
  C1_selection_bounds implId _ (Reachable.init (some [procA5]))

/-- C4: a refresh step whose snapshot fetch fails is swallowed and atomic —
`updateProcesses` returns with every field untouched, and the whole `r`/`R`
key handling step maps a reachable state to exactly itself with no termination
requests (and, being a total function, propagates no error). -/
theorem C4_failed_refresh_atomic (impl : SortImpl) (tui : InteractiveTUI)
    (h : Reachable impl tui) (termOk : Bool) (key : Nat)
    (hkey : key = 114 ∨ key = 82) :
    updateProcesses impl none tui = tui ∧
    handleKey impl none termOk key tui = (tui, []) := by
  have hinv := reachable_inv impl tui h
  have hr : render tui = tui := render_eq_self tui hinv.2
  refine ⟨rfl, ?_⟩
  rcases hkey with rfl | rfl <;>
    simp [handleKey, updateProcesses_none, hr]

/-- C4 witness: a failed refresh at the concrete initial reachable state. -/
theorem C4_failed_refresh_atomic_witness :
    updateProcesses implId none (render (updateProcesses implId none NewInteractiveTUI)) =
      render (updateProcesses implId none NewInteractiveTUI) ∧
    handleKey implId none true 114 (render (updateProcesses implId none NewInteractiveTUI)) =
      (render (updateProcesses implId none NewInteractiveTUI), []) :=
  C4_failed_refresh_atomic implId _ (Reachable.init none) true 114 (Or.inl rfl)

/-- C9: pressing a kill key (`d`, `D` or DELETE) in a reachable state whose
selection is invalid (in particular whenever `processes` is empty) sends no
termination signal, consumes no snapshot (the result is the same for every
snapshot argument), and leaves every field of the state unchanged. -/
theorem C9_kill_invalid_selection_noop (impl : SortImpl) (tui : InteractiveTUI)
    (h : Reachable impl tui)
    (hsel : tui.selectedIndex < 0 ∨ (tui.processes.length : Int) ≤ tui.selectedIndex)
    (snapshot : Option (List ProcessInfo)) (termOk : Bool) (key : Nat)
    (hkey : key = 127 ∨ key = 100 ∨ key = 68) :
    handleKey impl snapshot termOk key tui = (tui, []) := by
  have hinv := reachable_inv impl tui h
  have hr : render tui = tui := render_eq_self tui hinv.2
  have hkill : killSelectedProcess impl termOk snapshot tui = (tui, []) := by
    unfold killSelectedProcess
    rw [if_pos (by omega)]
  rcases hkey with rfl | rfl | rfl <;> simp [handleKey, hkill, hr]

/-- C9 witness: kill pressed at the concrete initial state (empty process
list, `selectedIndex = 0`), for two different snapshot arguments. -/
theorem C9_kill_invalid_selection_noop_witness :
    handleKey implId none false 100 (render (updateProcesses implId none NewInteractiveTUI)) =
      (render (updateProcesses implId none NewInteractiveTUI), []) ∧
    handleKey implId (some [procA5]) true 127
        (render (updateProcesses implId none NewInteractiveTUI)) =
      (render (updateProcesses implId none NewInteractiveTUI), []) :=
  ⟨C9_kill_invalid_selection_noop implId _ (Reachable.init none) (by decide) none false 100
      (Or.inr (Or.inl rfl)),
   C9_kill_invalid_selection_noop implId _ (Reachable.init none) (by decide) (some [procA5]) true
      127 (Or.inl rfl)⟩

theorem shouldSwapField_cpu (pj psel : ProcessInfo) :
    shouldSwapField ("cpu") true pj psel =
      decide (psel.CPUPercentage < pj.CPUPercentage) := by
  simp [shouldSwapField]

theorem selectScan_cons (field : String) (desc : Bool) (l : List ProcessInfo)
    (sel0 j : Nat) (js : List Nat) :
    selectScan field desc l sel0 (j :: js) =
      selectScan field desc l
        (if shouldSwapField field desc (l.getD j default) (l.getD sel0 default)
         then j else sel0) js := rfl

theorem selectScan_cpu_spec (l : List ProcessInfo) (js : List Nat) : ∀ sel0 : Nat,
    (selectScan ("cpu") true l sel0 js = sel0 ∨ selectScan ("cpu") true l sel0 js ∈ js) ∧
    (l.getD sel0 default).CPUPercentage ≤
      (l.getD (selectScan ("cpu") true l sel0 js) default).CPUPercentage ∧
    (∀ j ∈ js, (l.getD j default).CPUPercentage ≤
      (l.getD (selectScan ("cpu") true l sel0 js) default).CPUPercentage) := by
  induction js with
  | nil =>
    intro sel0
    exact ⟨Or.inl rfl, le_refl _, by simp⟩
  | cons j js ih =>
    intro sel0
    rw [selectScan_cons]
    by_cases h : shouldSwapField ("cpu") true (l.getD j default) (l.getD sel0 default) = true
    · rw [if_pos h]
      obtain ⟨m1, m2, m3⟩ := ih j
      rw [shouldSwapField_cpu] at h
      have hlt : (l.getD sel0 default).CPUPercentage ≤ (l.getD j default).CPUPercentage :=
        le_of_lt (by simpa using h)
      refine ⟨?_, le_trans hlt m2, ?_⟩
      · rcases m1 with he | hm
        · exact Or.inr (by rw [he]; exact List.mem_cons_self j js)
        · exact Or.inr (List.mem_cons_of_mem j hm)
      · intro j2 hj2
        rcases List.mem_cons.mp hj2 with rfl | hj2
        · exact m2
        · exact m3 j2 hj2
    · rw [if_neg h]
      obtain ⟨m1, m2, m3⟩ := ih sel0
      rw [shouldSwapField_cpu] at h
      have hle : (l.getD j default).CPUPercentage ≤ (l.getD sel0 default).CPUPercentage :=
        not_lt.mp (by simpa using h)
      refine ⟨?_, m2, ?_⟩
      · rcases m1 with he | hm
        · exact Or.inl he
        · exact Or.inr (List.mem_cons_of_mem j hm)
      · intro j2 hj2
        rcases List.mem_cons.mp hj2 with rfl | hj2
        · exact le_trans hle m2
        · exact m3 j2 hj2

theorem listSwap_length (l : List ProcessInfo) (i j : Nat) :
    (listSwap l i j).length = l.length := by
  simp [listSwap]

theorem listSwap_getD_ne (l : List ProcessInfo) (i j k : Nat)
    (h1 : k ≠ i) (h2 : k ≠ j) :
    (listSwap l i j).getD k default = l.getD k default := by
  unfold listSwap
  rw [List.getD_eq_getElem?_getD, List.getElem?_set_ne (Ne.symm h2),
    List.getElem?_set_ne (Ne.symm h1), ← List.getD_eq_getElem?_getD]

theorem listSwap_getD_left (l : List ProcessInfo) (i j : Nat)
    (hi : i < l.length) (hj : j < l.length) :
    (listSwap l i j).getD i default = l.getD j default := by
  unfold listSwap
  by_cases hij : i = j
  · subst hij
    rw [List.getD_eq_getElem?_getD,
      List.getElem?_set_self (by simpa [List.length_set] using hi)]
    rfl
  · rw [List.getD_eq_getElem?_getD, List.getElem?_set_ne (Ne.symm hij),
      List.getElem?_set_self hi]
    rfl

theorem listSwap_getD_right (l : List ProcessInfo) (i j : Nat)
    (hj : j < l.length) :
    (listSwap l i j).getD j default = l.getD i default := by
  unfold listSwap
  rw [List.getD_eq_getElem?_getD,
    List.getElem?_set_self (by simpa [List.length_set] using hj)]
  rfl

theorem getD_cons_set_perm : ∀ (t : List ProcessInfo) (m : Nat) (a : ProcessInfo),
    m < t.length → (t.getD m default :: t.set m a).Perm (a :: t)
  | b :: t2, 0, a, _ => List.Perm.swap a b t2
  | b :: t2, m + 1, a, h => by
    have ih := getD_cons_set_perm t2 m a (by simpa using h)
    show (t2.getD m default :: b :: t2.set m a).Perm (a :: b :: t2)
    have step1 : (t2.getD m default :: b :: t2.set m a).Perm
        (b :: t2.getD m default :: t2.set m a) := List.Perm.swap b _ _
    have step2 : (b :: t2.getD m default :: t2.set m a).Perm (b :: a :: t2) :=
      List.Perm.cons b ih
    have step3 : (b :: a :: t2).Perm (a :: b :: t2) := List.Perm.swap a b t2
    exact (step1.trans step2).trans step3

theorem listSwap_perm : ∀ (l : List ProcessInfo) (i j : Nat),
    i < l.length → j < l.length → (listSwap l i j).Perm l
  | [], _, _, hi, _ => absurd hi (by simp)
  | a :: t, 0, 0, _, _ => by
    unfold listSwap
    rw [List.set_set]
    exact List.Perm.refl _
  | a :: t, 0, j + 1, _, hj => by
    show (t.getD j default :: t.set j a).Perm (a :: t)
    exact getD_cons_set_perm t j a (by simpa using hj)
  | a :: t, i + 1, 0, hi, _ => by
    show (t.getD i default :: t.set i a).Perm (a :: t)
    exact getD_cons_set_perm t i a (by simpa using hi)
  | a :: t, i + 1, j + 1, hi, hj => by
    show (a :: listSwap t i j).Perm (a :: t)
    exact List.Perm.cons a (listSwap_perm t i j (by simpa using hi) (by simpa using hj))

theorem selectPass_cpu_spec (l : List ProcessInfo) (t : Nat) (ht : t < l.length)
    (hdom : DomPrefix t l) :
    (selectPass ("cpu") true l t).length = l.length ∧
    (selectPass ("cpu") true l t).Perm l ∧
    DomPrefix (t + 1) (selectPass ("cpu") true l t) := by
  unfold selectPass
  set sel := selectScan ("cpu") true l t (List.range' (t + 1) (l.length - (t + 1))) with hsel
  obtain ⟨m1, m2, m3⟩ := selectScan_cpu_spec l (List.range' (t + 1) (l.length - (t + 1))) t
  rw [← hsel] at m1 m2 m3
  have hselge : t ≤ sel := by
    rcases m1 with he | hm
    · omega
    · have := List.mem_range'_1.mp hm
      omega
  have hsellt : sel < l.length := by
    rcases m1 with he | hm
    · omega
    · have := List.mem_range'_1.mp hm
      omega
  have hmax : ∀ c, t ≤ c → c < l.length →
      (l.getD c default).CPUPercentage ≤ (l.getD sel default).CPUPercentage := by
    intro c hc1 hc2
    rcases Nat.eq_or_lt_of_le hc1 with he | hc
    · exact he ▸ m2
    · exact m3 c (List.mem_range'_1.mpr ⟨hc, by omega⟩)
  by_cases hne : sel ≠ t
  · rw [if_pos hne]
    refine ⟨listSwap_length l t sel, listSwap_perm l t sel ht hsellt, ?_⟩
    intro a b hab hb hat
    rw [listSwap_length] at hb
    rcases Nat.lt_or_ge a t with halt | hage
    · have ha2 : (listSwap l t sel).getD a default = l.getD a default :=
        listSwap_getD_ne l t sel a (by omega) (by omega)
      by_cases hbt : b = t
      · rw [hbt, ha2, listSwap_getD_left l t sel ht hsellt]
        exact hdom a sel (by omega) hsellt halt
      · by_cases hbsel : b = sel
        · rw [hbsel, ha2, listSwap_getD_right l t sel hsellt]
          exact hdom a t (by omega) ht halt
        · rw [ha2, listSwap_getD_ne l t sel b (fun h => hbt h) (fun h => hbsel h)]
          exact hdom a b hab hb halt
    · have hat2 : a = t := by omega
      subst hat2
      rw [listSwap_getD_left l a sel ht hsellt]
      by_cases hbsel : b = sel
      · rw [hbsel, listSwap_getD_right l a sel hsellt]
        exact hmax a (le_refl a) ht
      · rw [listSwap_getD_ne l a sel b (by omega) (fun h => hbsel h)]
        exact hmax b (by omega) hb
  · rw [if_neg hne]
    have hseleq : sel = t := by omega
    refine ⟨rfl, List.Perm.refl l, ?_⟩
    intro a b hab hb hat
    rcases Nat.lt_or_ge a t with halt | hage
    · exact hdom a b hab hb halt
    · have hat2 : a = t := by omega
      subst hat2
      have := hmax b (by omega) hb
      rw [hseleq] at this
      exact this

theorem selectPass_fold_spec (l0 : List ProcessInfo) : ∀ (cnt t : Nat)
    (l : List ProcessInfo), l.length = l0.length → l.Perm l0 → DomPrefix t l →
    t + cnt + 1 = l0.length →
    ((List.range' t cnt).foldl (selectPass ("cpu") true) l).Perm l0 ∧
    DomPrefix (l0.length - 1) ((List.range' t cnt).foldl (selectPass ("cpu") true) l) := by
  intro cnt
  induction cnt with
  | zero =>
    intro t l hlen hperm hdom hsum
    have ht : t = l0.length - 1 := by omega
    exact ⟨hperm, ht ▸ hdom⟩
  | succ c ih =>
    intro t l hlen hperm hdom hsum
    rw [List.range'_succ, List.foldl_cons]
    have ht : t < l.length := by omega
    obtain ⟨p1, p2, p3⟩ := selectPass_cpu_spec l t ht hdom
    exact ih (t + 1) (selectPass ("cpu") true l t) (p1.trans hlen) (p2.trans hperm) p3 (by omega)

theorem sortByCpu_spec (l : List ProcessInfo) :
    (SortProcessesByField ("cpu") true l).Perm l ∧
    (SortProcessesByField ("cpu") true l).Pairwise
      (fun x y => sortLess .SortByCPU y x = false) := by
  unfold SortProcessesByField
  by_cases h : l.length ≤ 1
  · rw [if_pos h]
    refine ⟨List.Perm.refl l, ?_⟩
    match l, h with
    | [], _ => exact List.Pairwise.nil
    | [x], _ => exact List.pairwise_singleton _ x
  · rw [if_neg h]
    push_neg at h
    have h0 : DomPrefix 0 l := fun a b hab hb hat => absurd hat (Nat.not_lt_zero a)
    rw [List.range_eq_range']
    obtain ⟨hp, hd⟩ := selectPass_fold_spec l (l.length - 1) 0 l rfl (List.Perm.refl l) h0
      (by omega)
    refine ⟨hp, ?_⟩
    have hlen : ((List.range' 0 (l.length - 1)).foldl (selectPass ("cpu") true) l).length =
        l.length := hp.length_eq
    rw [List.pairwise_iff_getElem]
    intro i j hi hj hij
    have hle := hd i j hij (by omega) (by omega)
    rw [List.getD_eq_getElem _ _ (by omega), List.getD_eq_getElem _ _ (by omega)] at hle
    simp only [sortLess, decide_eq_false_iff_not, not_lt, gt_iff_lt]
    exact hle


/-- C5: with a valid selection, a kill-key step (`d`, `D` or DELETE) issues
exactly one SIGTERM request for the selected PID, followed by exactly one
SIGKILL request for the same PID if and only if the SIGTERM request failed;
and every non-kill-key step (navigation, refresh, sort change, quit,
unrecognised byte) — in particular the refresh and render that follow —
issues no termination request at all. -/
theorem killSelectedProcess_sigs (impl : SortImpl) (termOk : Bool)
    (snapshot : Option (List ProcessInfo)) (tui : InteractiveTUI)
    (hvalid : 0 ≤ tui.selectedIndex ∧ tui.selectedIndex < (tui.processes.length : Int)) :
    (killSelectedProcess impl termOk snapshot tui).2 =
      ((tui.processes.getD tui.selectedIndex.toNat default).PID, Signal.SIGTERM) ::
        (if termOk then []
         else [((tui.processes.getD tui.selectedIndex.toNat default).PID, Signal.SIGKILL)]) := by
  unfold killSelectedProcess
  rw [if_neg (by omega)]

theorem C5_kill_escalation (impl : SortImpl) (snapshot : Option (List ProcessInfo))
    (termOk : Bool) (tui : InteractiveTUI)
    (hvalid : 0 ≤ tui.selectedIndex ∧ tui.selectedIndex < (tui.processes.length : Int)) :
    (∀ key, key = 127 ∨ key = 100 ∨ key = 68 →
      (handleKey impl snapshot termOk key tui).2 =
        ((tui.processes.getD tui.selectedIndex.toNat default).PID, Signal.SIGTERM) ::
          (if termOk then []
           else [((tui.processes.getD tui.selectedIndex.toNat default).PID, Signal.SIGKILL)])) ∧
    (∀ key, ¬(key = 127 ∨ key = 100 ∨ key = 68) →
      (handleKey impl snapshot termOk key tui).2 = []) := by
  constructor
  · rintro key (rfl | rfl | rfl) <;>
      exact killSelectedProcess_sigs impl termOk snapshot tui hvalid
  · intro key hk
    unfold handleKey
    split_ifs <;> rfl

/-- C5 witness: killing the single selected process, with a failing SIGTERM
(escalation to SIGKILL) and with a succeeding SIGTERM (no escalation), plus a
refresh step that issues nothing. -/
theorem C5_kill_escalation_witness :
    (handleKey implId none false 100
        { NewInteractiveTUI with processes := [procC9] }).2 =
      [(3, Signal.SIGTERM), (3, Signal.SIGKILL)] ∧
    (handleKey implId none true 68
        { NewInteractiveTUI with processes := [procC9] }).2 =
      [(3, Signal.SIGTERM)] ∧
    (handleKey implId none false 114
        { NewInteractiveTUI with processes := [procC9] }).2 = [] := by
  refine ⟨?_, ?_, ?_⟩
  · have h := (C5_kill_escalation implId none false
      { NewInteractiveTUI with processes := [procC9] } (by decide)).1 100 (Or.inr (Or.inl rfl))
    simpa [procC9] using h
  · have h := (C5_kill_escalation implId none true
      { NewInteractiveTUI with processes := [procC9] } (by decide)).1 68 (Or.inr (Or.inr rfl))
    simpa [procC9] using h
  · exact (C5_kill_escalation implId none false
      { NewInteractiveTUI with processes := [procC9] } (by decide)).2 114 (by decide)

/-- C7: from a state showing 20 processes with the last row selected
(`selectedIndex = 19`), a refresh whose snapshot holds only 5 processes clamps
the selection to the new upper bound (`selectedIndex = 4`) and the following
render leaves the selected row inside the visible window. -/
theorem C7_refresh_shrinks_list (impl : SortImpl) (hok : SortSliceOK impl)
    (tui : InteractiveTUI) (snapshot : List ProcessInfo)
    (hlen : tui.processes.length = 20) (hsel : tui.selectedIndex = 19)
    (hsnap : snapshot.length = 5) :
    (render (updateProcesses impl (some snapshot) tui)).selectedIndex = 4 ∧
    (render (updateProcesses impl (some snapshot) tui)).scrollOffset ≤ 4 ∧
    (4 : Int) ≤ (render (updateProcesses impl (some snapshot) tui)).scrollOffset +
      maxLines - 1 := by
  have hplen : (sortProcesses impl tui snapshot).length = 5 := by
    have hperm := (hok tui.sortMode snapshot).1
    simpa [sortProcesses] using hperm.length_eq.trans hsnap
  have hupd : (updateProcesses impl (some snapshot) tui).selectedIndex = 4 := by
    unfold updateProcesses
    try dsimp only
    rw [if_pos (show tui.selectedIndex ≥ (((sortProcesses impl tui snapshot).length : Nat) : Int)
      from by rw [hplen, hsel]; norm_num)]
    try dsimp only
    rw [if_neg (show ¬((((sortProcesses impl tui snapshot).length : Nat) : Int) - 1 < 0)
      from by rw [hplen]; norm_num)]
    try dsimp only
    rw [hplen]
    norm_num
  obtain ⟨f1, -, -, -⟩ := render_fields (updateProcesses impl (some snapshot) tui)
  have hw := render_window (updateProcesses impl (some snapshot) tui)
  refine ⟨f1.trans hupd, ?_, ?_⟩
  · rw [← hupd]
    exact hw.1
  · rw [← hupd]
    exact hw.2

/-- C7 witness: 20 identical rows selected at the bottom, refreshed with a
5-row snapshot under the contract-satisfying insertion-sort implementation. -/
theorem C7_refresh_shrinks_list_witness :
    (render (updateProcesses stableImpl
        (some [procA5, procB5, procC9, procA5, procB5])
        { NewInteractiveTUI with
          processes := List.replicate 20 procA5
          selectedIndex := 19 })).selectedIndex = 4 ∧
    (render (updateProcesses stableImpl
        (some [procA5, procB5, procC9, procA5, procB5])
        { NewInteractiveTUI with
          processes := List.replicate 20 procA5
          selectedIndex := 19 })).scrollOffset ≤ 4 ∧
    (4 : Int) ≤ (render (updateProcesses stableImpl
        (some [procA5, procB5, procC9, procA5, procB5])
        { NewInteractiveTUI with
          processes := List.replicate 20 procA5
          selectedIndex := 19 })).scrollOffset + maxLines - 1 :=
  C7_refresh_shrinks_list stableImpl sortSliceOK_stableImpl _ _ (by decide) rfl rfl

theorem refreshStep_spec (impl : SortImpl) (snapshot : List ProcessInfo)
    (tui : InteractiveTUI) :
    (render (updateProcesses impl (some snapshot) tui)).processes =
      impl (sortLess tui.sortMode) snapshot ∧
    (render (updateProcesses impl (some snapshot) tui)).sortMode = tui.sortMode := by
  obtain ⟨-, f2, f3, -⟩ := render_fields (updateProcesses impl (some snapshot) tui)
  obtain ⟨-, u2, -⟩ := updateProcesses_fields impl (some snapshot) tui
  exact ⟨f2.trans (updateProcesses_some_processes impl snapshot tui), f3.trans u2⟩

/-- C2 counterexample: the claim as stated is false.  The `sort.Slice` contract
does not promise stability, and an implementation meeting the contract while
reversing equal-key runs (`reversingImpl`) makes a refresh (`r`, byte 114) of
the snapshot `[procA5, procB5]` — two records tied on CPU — come out as
`[procB5, procA5]`, so records with equal sort keys do not keep their relative
input order. -/
theorem C2_counterexample : ¬ ClaimC2 := by
  intro h
  have h2 := h reversingImpl sortSliceOK_reversingImpl NewInteractiveTUI [procA5, procB5]
    true 114 (Or.inl rfl)
  have h3 := h2.2 procA5
  revert h3
  decide

/-- C2 (amended): immediately after any refresh or sort-mode-change step, the
process list of the controller is a permutation of the fetched snapshot ordered
according to the comparator of the now-current sort mode — CPU descending, RAM
descending, PID ascending (no later element strictly precedes an earlier one);
stability across equal keys is not guaranteed (`sort.Slice` is documented
unstable, so equal-key records may appear in either order). -/
theorem C2_sorted_after_refresh (impl : SortImpl) (hok : SortSliceOK impl)
    (tui : InteractiveTUI) (snapshot : List ProcessInfo) (termOk : Bool) (key : Nat)
    (hkey : RefreshOrSortKey key) :
    (handleKey impl (some snapshot) termOk key tui).1.processes.Pairwise
      (fun x y =>
        sortLess (handleKey impl (some snapshot) termOk key tui).1.sortMode y x = false) ∧
    (handleKey impl (some snapshot) termOk key tui).1.processes.Perm snapshot := by
  unfold RefreshOrSortKey at hkey
  rcases hkey with rfl | rfl | rfl | rfl | rfl | rfl | rfl | rfl
  · have hs := refreshStep_spec impl snapshot tui
    have hK : (handleKey impl (some snapshot) termOk 114 tui).1 =
      render (updateProcesses impl (some snapshot) tui) := rfl
    rw [hK, hs.1, hs.2]
    exact ⟨(hok tui.sortMode snapshot).2, (hok tui.sortMode snapshot).1⟩
  · have hs := refreshStep_spec impl snapshot tui
    have hK : (handleKey impl (some snapshot) termOk 82 tui).1 =
      render (updateProcesses impl (some snapshot) tui) := rfl
    rw [hK, hs.1, hs.2]
    exact ⟨(hok tui.sortMode snapshot).2, (hok tui.sortMode snapshot).1⟩
  · have hs := refreshStep_spec impl snapshot { tui with sortMode := SortMode.SortByCPU }
    have hK : (handleKey impl (some snapshot) termOk 99 tui).1 =
      render (updateProcesses impl (some snapshot)
        { tui with sortMode := SortMode.SortByCPU }) := rfl
    rw [hK, hs.1, hs.2]
    exact ⟨(hok .SortByCPU snapshot).2, (hok .SortByCPU snapshot).1⟩
  · have hs := refreshStep_spec impl snapshot { tui with sortMode := SortMode.SortByCPU }
    have hK : (handleKey impl (some snapshot) termOk 67 tui).1 =
      render (updateProcesses impl (some snapshot)
        { tui with sortMode := SortMode.SortByCPU }) := rfl
    rw [hK, hs.1, hs.2]
    exact ⟨(hok .SortByCPU snapshot).2, (hok .SortByCPU snapshot).1⟩
  · have hs := refreshStep_spec impl snapshot { tui with sortMode := SortMode.SortByRAM }
    have hK : (handleKey impl (some snapshot) termOk 109 tui).1 =
      render (updateProcesses impl (some snapshot)
        { tui with sortMode := SortMode.SortByRAM }) := rfl
    rw [hK, hs.1, hs.2]
    exact ⟨(hok .SortByRAM snapshot).2, (hok .SortByRAM snapshot).1⟩
  · have hs := refreshStep_spec impl snapshot { tui with sortMode := SortMode.SortByRAM }
    have hK : (handleKey impl (some snapshot) termOk 77 tui).1 =
      render (updateProcesses impl (some snapshot)
        { tui with sortMode := SortMode.SortByRAM }) := rfl
    rw [hK, hs.1, hs.2]
    exact ⟨(hok .SortByRAM snapshot).2, (hok .SortByRAM snapshot).1⟩
  · have hs := refreshStep_spec impl snapshot { tui with sortMode := SortMode.SortByPID }
    have hK : (handleKey impl (some snapshot) termOk 112 tui).1 =
      render (updateProcesses impl (some snapshot)
        { tui with sortMode := SortMode.SortByPID }) := rfl
    rw [hK, hs.1, hs.2]
    exact ⟨(hok .SortByPID snapshot).2, (hok .SortByPID snapshot).1⟩
  · have hs := refreshStep_spec impl snapshot { tui with sortMode := SortMode.SortByPID }
    have hK : (handleKey impl (some snapshot) termOk 80 tui).1 =
      render (updateProcesses impl (some snapshot)
        { tui with sortMode := SortMode.SortByPID }) := rfl
    rw [hK, hs.1, hs.2]
    exact ⟨(hok .SortByPID snapshot).2, (hok .SortByPID snapshot).1⟩

/-- C2 (amended) witness: a sort-mode change to CPU (`c`, byte 99) on a
concrete three-row snapshot under the contract-satisfying insertion-sort
implementation. -/
theorem C2_sorted_after_refresh_witness :
    (handleKey stableImpl (some [procB5, procC9, procA5]) true 99
        NewInteractiveTUI).1.processes.Pairwise
      (fun x y =>
        sortLess (handleKey stableImpl (some [procB5, procC9, procA5]) true 99
          NewInteractiveTUI).1.sortMode y x = false) ∧
    (handleKey stableImpl (some [procB5, procC9, procA5]) true 99
        NewInteractiveTUI).1.processes.Perm [procB5, procC9, procA5] :=
  C2_sorted_after_refresh stableImpl sortSliceOK_stableImpl NewInteractiveTUI _ true 99
    (Or.inr (Or.inr (Or.inl rfl)))

/-- C8 counterexample: the claim as stated is false.  The top-N sort is the
selection sort `common.SortProcessesByField ("cpu") true` (equally the inline
loop of `GetProcessAssociationSorted` in pidAssociation.go), which is not
stable: sorting the snapshot `[procA5, procB5, procC9]` (PIDs 1, 2, 3; CPU
5, 5, 9) yields `[procC9, procB5, procA5]` — the two records tied at CPU 5%
come out in reversed snapshot order. -/
theorem C8_counterexample : ¬ ClaimC8 := by
  intro h
  have h2 := (h [procA5, procB5, procC9] 3).2.2.2.2 5
  revert h2
  decide

/-- C8 (amended): the top-N listing presents the first `N` rows (clamped to
the list length) of the snapshot sorted by CPU percentage in descending order
(a permutation of the snapshot with no later row having strictly larger CPU);
processes with equal CPU percentage may appear in either relative order
(the selection sort used is not stable). -/
theorem C8_top_listing (snapshot : List ProcessInfo) (n : Nat) :
    PrintTopProcessesRowsAssoc n snapshot =
      (GetProcessAssociationSorted snapshot).take n ∧
    (0 < n → PrintTopProcessesRows n snapshot =
      (GetProcessAssociationSorted snapshot).take n) ∧
    (GetProcessAssociationSorted snapshot).Perm snapshot ∧
    (GetProcessAssociationSorted snapshot).Pairwise
      (fun x y => sortLess .SortByCPU y x = false) := by
  obtain ⟨hp, hs⟩ := sortByCpu_spec snapshot
  refine ⟨?_, ?_, hp, hs⟩
  · unfold PrintTopProcessesRowsAssoc
    dsimp only
    rcases le_total n (GetProcessAssociationSorted snapshot).length with hle | hle
    · rw [min_eq_left hle]
    · rw [min_eq_right hle, List.take_of_length_le hle,
        List.take_of_length_le (le_refl _)]
  · intro hn
    unfold PrintTopProcessesRows
    dsimp only
    by_cases hc : 0 < n ∧ n < (GetProcessAssociationSorted snapshot).length
    · rw [if_pos hc]
    · rw [if_neg hc]
      have hge : (GetProcessAssociationSorted snapshot).length ≤ n := by
        rcases Nat.lt_or_ge n (GetProcessAssociationSorted snapshot).length with h1 | h1
        · exact absurd ⟨hn, h1⟩ hc
        · exact h1
      rw [List.take_of_length_le hge]

/-- C8 (amended) witness: the top-2 rows of a concrete three-row snapshot. -/
theorem C8_top_listing_witness :
    PrintTopProcessesRows 2 [procA5, procB5, procC9] =
      (GetProcessAssociationSorted [procA5, procB5, procC9]).take 2 :=
  (C8_top_listing [procA5, procB5, procC9] 2).2.1 (by decide)

end GoMonitor
